import Mathlib

/-!
Verification of the long-form-memory pipeline (extraction, storage, retrieval)
of the Long-form-memoryLLM repository, shallowly embedded in Lean 4.

The embedding follows the Python sources:
- src/memory_storage.py   (SQLite-backed store; rows, uniqueness, search, stats)
- src/memory_extraction.py (regex-rule extraction, filter, deduplicate)
- src/memory_retrieval.py (relevance scoring, diversity selection)

Floating-point numbers of the source are modelled as rationals where the code
only adds, compares and divides them, and as real numbers where the code calls
exp and log.  SQLite behaviour relevant to the claims is modelled explicitly:
NULL fields never compare equal under the UNIQUE constraint, COUNT of an empty
selection is 0 while AVG, MIN and MAX of an empty selection are NULL, and LIKE
is case-insensitive with the wildcards percent and underscore.
-/

namespace LongMemory

/-- A candidate memory as built by MemoryExtractor (a Python dict without an
id).  `key` and `value` are optional because the code stores Python None in
them (see commitment pattern 4); the other fields are always set by the
extractor before the record reaches the store. -/
structure Candidate where
  type : String
  content : String
  key : Option String
  value : Option String
  confidence : ℚ
  raw_text : String
  session_id : String := ""
  source_turn : Int := 0
  created_at : Option String := none
  last_accessed : Option String := none
  access_count : Nat := 0
deriving DecidableEq, Repr

/-- A row of the memories table (memory_storage.py, _init_database), i.e. a
Candidate plus the id assigned by the AUTOINCREMENT primary key. -/
structure MemRow where
  id : Nat
  session_id : String
  type : String
  content : String
  key : Option String
  value : Option String
  confidence : ℚ
  source_turn : Int
  created_at : Option String
  last_accessed : Option String
  access_count : Nat
  raw_text : String
deriving DecidableEq, Repr

/-- The state of the SQLite table: its rows plus the AUTOINCREMENT counter
(the next id to assign; AUTOINCREMENT ids start at 1 and are never reused). -/
structure Store where
  rows : List MemRow
  next_id : Nat
deriving DecidableEq, Repr

def emptyStore : Store := { rows := [], next_id := 1 }

/-- The row written by the INSERT statement of store_memory for a candidate,
given the id the database assigns. -/
def rowOf (id : Nat) (m : Candidate) : MemRow :=
  { id := id
    session_id := m.session_id
    type := m.type
    content := m.content
    key := m.key
    value := m.value
    confidence := m.confidence
    source_turn := m.source_turn
    created_at := m.created_at
    last_accessed := m.last_accessed
    access_count := m.access_count
    raw_text := m.raw_text }

/-- SQL equality of two nullable TEXT fields: NULL never equals anything,
including NULL.  This is what the UNIQUE constraint of the memories table
uses for the nullable columns key and value. -/
def optSqlEq : Option String → Option String → Bool
  | some a, some b => a == b
  | _, _ => false

/-- The condition under which an existing row conflicts with an inserted
candidate under UNIQUE(session_id, type, key, value, source_turn), with
SQL NULL semantics on the nullable columns. -/
def sqlConflict (r : MemRow) (m : Candidate) : Bool :=
  r.session_id == m.session_id && r.type == m.type &&
    optSqlEq r.key m.key && optSqlEq r.value m.value &&
    r.source_turn == m.source_turn

/-- Plain (claim-level) equality of the uniqueness tuple, where two absent
values count as equal.  This follows the words of the spec ("a record whose
(session_id, type, key, value, source_turn) tuple already exists"), to be
compared against the SQL behaviour sqlConflict. -/
def claimTupleEq (r : MemRow) (m : Candidate) : Bool :=
  r.session_id == m.session_id && r.type == m.type &&
    r.key == m.key && r.value == m.value && r.source_turn == m.source_turn

/-- MemoryStorage.store_memory: INSERT the row; on an IntegrityError from the
UNIQUE constraint return -1 and leave the table unchanged, otherwise return
the assigned lastrowid (the AUTOINCREMENT counter) and append the row. -/
def store_memory (s : Store) (m : Candidate) : Int × Store :=
  if s.rows.any (fun r => sqlConflict r m) then
    (-1, s)
  else
    ((s.next_id : Int),
      { rows := s.rows ++ [rowOf s.next_id m], next_id := s.next_id + 1 })

/-- MemoryStorage.get_memory: SELECT * FROM memories WHERE id = ?, fetchone. -/
def get_memory (s : Store) (memory_id : Nat) : Option MemRow :=
  s.rows.find? (fun r => r.id == memory_id)

/-- MemoryStorage.update_memory_access: UPDATE memories SET last_accessed =
now, access_count = access_count + 1 WHERE id = ?.  `now` stands for the
datetime.utcnow().isoformat() string. -/
def update_memory_access (s : Store) (memory_id : Nat) (now : String) : Store :=
  { s with
    rows := s.rows.map (fun r =>
      if r.id = memory_id then
        { r with last_accessed := some now, access_count := r.access_count + 1 }
      else r) }

/-- Ascending order on source_turn, the ORDER BY of get_session_memories.
Row order among equal turns is implementation-defined in SQLite; the model
fixes it to the stable order, which is immaterial to the claims proved. -/
def turnAsc (a b : MemRow) : Prop := a.source_turn ≤ b.source_turn

instance : DecidableRel turnAsc := fun a b => inferInstanceAs (Decidable (_ ≤ _))

instance : IsTotal MemRow turnAsc := ⟨fun a b => le_total a.source_turn b.source_turn⟩

instance : IsTrans MemRow turnAsc := ⟨fun _ _ _ h h2 => le_trans h h2⟩

/-- MemoryStorage.get_session_memories: rows of the session, optionally of one
type, with confidence at or above min_confidence, ordered by source_turn. -/
def get_session_memories (s : Store) (session_id : String)
    (memory_type : Option String := none) (min_confidence : ℚ := 0) :
    List MemRow :=
  let sel := s.rows.filter (fun r =>
    r.session_id == session_id &&
      (match memory_type with
       | some t => r.type == t
       | none => true) &&
      min_confidence ≤ r.confidence)
  sel.insertionSort turnAsc

/-- MemoryStorage.delete_session_memories: DELETE FROM memories WHERE
session_id = ?. -/
def delete_session_memories (s : Store) (session_id : String) : Store :=
  { s with rows := s.rows.filter (fun r => !(r.session_id == session_id)) }

/-- ASCII lower-casing, the folding SQLite LIKE applies by default. -/
def sqliteLower (c : Char) : Char :=
  if 'A' ≤ c ∧ c ≤ 'Z' then Char.ofNat (c.toNat + 32) else c

/-- SQLite LIKE matching of a pattern against a text, both as char lists:
percent matches any (possibly empty) sequence, underscore any single
character, any other char matches itself case-insensitively (ASCII). -/
def likeM : List Char → List Char → Bool
  | [], t => t.isEmpty
  | c :: p, t =>
    if c = '%' then (t.tails).any (fun s => likeM p s)
    else
      match t with
      | [] => false
      | d :: t2 =>
        (if c = '_' then true else sqliteLower c == sqliteLower d) &&
          likeM p t2

/-- Whether a row matches content LIKE pat OR value LIKE pat in SQL: a NULL
value makes its LIKE evaluate to NULL (not true). -/
def rowLikeMatch (pat : List Char) (r : MemRow) : Bool :=
  likeM pat r.content.data ||
    (match r.value with
     | some v => likeM pat v.data
     | none => false)

/-- Descending order on confidence, the ORDER BY confidence DESC of
_text_search. -/
def confDesc (a b : MemRow) : Prop := b.confidence ≤ a.confidence

instance : DecidableRel confDesc := fun a b => inferInstanceAs (Decidable (_ ≤ _))

instance : IsTotal MemRow confDesc := ⟨fun a b => le_total b.confidence a.confidence⟩

instance : IsTrans MemRow confDesc := ⟨fun _ _ _ h h2 => le_trans h2 h⟩

/-- MemoryStorage._text_search: the fallback used when the similarity backend
is disabled.  Builds the pattern percent-query-percent, keeps rows of the
(optional) session whose content or value LIKE-matches it, orders by
confidence descending and truncates to top_k. -/
def text_search (query : String) (session_id : Option String) (top_k : Nat)
    (s : Store) : List MemRow :=
  let pat : List Char := '%' :: (query.data ++ ['%'])
  let sel := s.rows.filter (fun r =>
    (match session_id with
     | some sid => r.session_id == sid
     | none => true) && rowLikeMatch pat r)
  (sel.insertionSort confDesc).take top_k

/-- The minimum of a list of integers as SQL MIN: NULL on the empty list. -/
def sqlMin : List Int → Option Int
  | [] => none
  | x :: xs =>
    match sqlMin xs with
    | none => some x
    | some m => some (min x m)

/-- The maximum of a list of integers as SQL MAX: NULL on the empty list. -/
def sqlMax : List Int → Option Int
  | [] => none
  | x :: xs =>
    match sqlMax xs with
    | none => some x
    | some m => some (max x m)

/-- The rows the stats query aggregates over: all rows, or the rows of one
session. -/
def matchingRows (s : Store) (session_id : Option String) : List MemRow :=
  match session_id with
  | some sid => s.rows.filter (fun r => r.session_id == sid)
  | none => s.rows

/-- The result dict of get_memory_stats.  Each field is optional as in a
fetched SQL row; COUNT always produces a number, the three aggregates are
NULL on an empty selection. -/
structure MemoryStats where
  total_memories : Option Nat
  avg_confidence : Option ℚ
  earliest_turn : Option Int
  latest_turn : Option Int
deriving DecidableEq, Repr

/-- MemoryStorage.get_memory_stats: SELECT COUNT(*), AVG(confidence),
MIN(source_turn), MAX(source_turn) over the matching rows. -/
def get_memory_stats (s : Store) (session_id : Option String) : MemoryStats :=
  let ms := matchingRows s session_id
  { total_memories := some ms.length
    avg_confidence :=
      if ms.length = 0 then none
      else some ((ms.map (fun r => r.confidence)).sum / (ms.length : ℚ))
    earliest_turn := sqlMin (ms.map (fun r => r.source_turn))
    latest_turn := sqlMax (ms.map (fun r => r.source_turn)) }

/-! ### The regular-expression engine for memory_extraction.py

The extractor classifies text with Python re patterns.  They are embedded as
abstract syntax trees over a small backtracking engine that reproduces the
semantics the patterns rely on: leftmost match, left-biased alternation,
greedy star / plus / option, capture groups, word boundaries, optional
IGNORECASE, and finditer scanning.  The engine is structurally recursive on a
fuel argument; the fuel supplied by matFuel exceeds the depth of any possible
backtracking call chain (every nested call shrinks the pair of pattern size
and remaining text length lexicographically), so it never runs out. -/

/-- Capture groups of one match attempt: group index with matched chars. -/
abbrev Caps := List (Nat × List Char)

/-- Regular expressions as used by the extraction patterns. -/
inductive RE where
  | eps : RE
  | lit : Char → RE
  | cls : (Char → Bool) → RE
  | seq : RE → RE → RE
  | alt : RE → RE → RE
  | star : RE → RE
  | opt : RE → RE
  | group : Nat → RE → RE
  | wb : RE

def reSize : RE → Nat
  | .eps => 1
  | .lit _ => 1
  | .cls _ => 1
  | .wb => 1
  | .seq a b => reSize a + reSize b + 1
  | .alt a b => reSize a + reSize b + 1
  | .star a => reSize a + 1
  | .opt a => reSize a + 1
  | .group _ a => reSize a + 1

/-- Word characters for the \b assertion (ASCII reading of Python \w). -/
def isWordChar (c : Char) : Bool := c.isAlphanum || c == '_'

/-- Python word boundary: the previous and next characters disagree on being
word characters (text edges count as non-word). -/
def atBoundary (prev : Option Char) (t : List Char) : Bool :=
  let lw := match prev with
    | some c => isWordChar c
    | none => false
  let rw := match t with
    | c :: _ => isWordChar c
    | [] => false
  lw != rw

/-- Single-character comparison, case-insensitive when ci is set
(re.IGNORECASE). -/
def charMatch (ci : Bool) (c d : Char) : Bool :=
  if ci then c.toLower == d.toLower else c == d

/-- All ways a regex can match a prefix of the text, in Python backtracking
priority order (head = the match Python picks).  Each result carries the
captures, the new previous-character (for \b) and the remaining text. -/
def mats (ci : Bool) : Nat → RE → Option Char → List Char →
    List (Caps × Option Char × List Char)
  | 0, _, _, _ => []
  | _ + 1, .eps, prev, t => [([], prev, t)]
  | _ + 1, .lit c, _prev, t =>
    match t with
    | [] => []
    | d :: t2 => if charMatch ci c d then [([], some d, t2)] else []
  | _ + 1, .cls p, _prev, t =>
    match t with
    | [] => []
    | d :: t2 => if p d then [([], some d, t2)] else []
  | _ + 1, .wb, prev, t => if atBoundary prev t then [([], prev, t)] else []
  | f + 1, .seq a b, prev, t =>
    (mats ci f a prev t).flatMap (fun r =>
      (mats ci f b r.2.1 r.2.2).map (fun r2 => (r.1 ++ r2.1, r2.2)))
  | f + 1, .alt a b, prev, t => mats ci f a prev t ++ mats ci f b prev t
  | f + 1, .opt a, prev, t => mats ci f a prev t ++ [([], prev, t)]
  | f + 1, .star a, prev, t =>
    ((mats ci f a prev t).filter (fun r => r.2.2.length < t.length)).flatMap
      (fun r => (mats ci f (.star a) r.2.1 r.2.2).map
        (fun r2 => (r.1 ++ r2.1, r2.2))) ++ [([], prev, t)]
  | f + 1, .group n a, prev, t =>
    (mats ci f a prev t).map (fun r =>
      ((n, t.take (t.length - r.2.2.length)) :: r.1, r.2))

/-- Fuel bound: strictly more than the longest possible chain of nested mats
calls (which shrinks (pattern size, text length) lexicographically). -/
def matFuel (re : RE) (t : List Char) : Nat := (reSize re + 2) * (t.length + 2)

/-- re.finditer: scan left to right, at each position take the leftmost
backtracking match; continue after its end (one char further for a
zero-width match, as Python does). -/
def findIterAux (ci : Bool) (re : RE) : Nat → Option Char → List Char →
    List (List Char × Caps)
  | 0, _, _ => []
  | f + 1, prev, t =>
    match (mats ci (matFuel re t) re prev t).head? with
    | some (caps, prev2, rest) =>
      let consumed := t.length - rest.length
      if consumed = 0 then
        ([], caps) ::
          (match t with
           | [] => []
           | d :: t2 => findIterAux ci re f (some d) t2)
      else (t.take consumed, caps) :: findIterAux ci re f prev2 rest
    | none =>
      match t with
      | [] => []
      | d :: t2 => findIterAux ci re f (some d) t2

/-- re.finditer over a string; each match is (group 0 chars, captures). -/
def findIter (ci : Bool) (re : RE) (text : String) : List (List Char × Caps) :=
  findIterAux ci re (text.data.length + 1) none text.data

/-- re.search: captures of the match at the earliest matching position. -/
def reSearchAux (ci : Bool) (re : RE) : Nat → Option Char → List Char →
    Option Caps
  | 0, _, _ => none
  | f + 1, prev, t =>
    match (mats ci (matFuel re t) re prev t).head? with
    | some (caps, _, _) => some caps
    | none =>
      match t with
      | [] => none
      | d :: t2 => reSearchAux ci re f (some d) t2

def reSearch (ci : Bool) (re : RE) (text : String) : Option Caps :=
  reSearchAux ci re (text.data.length + 1) none text.data

/-- Truthiness of re.search, used by the helper classifiers. -/
def reTest (ci : Bool) (re : RE) (text : String) : Bool :=
  (reSearch ci re text).isSome

/-! ### The extraction patterns (memory_extraction.py, MemoryExtractor) -/

/-- A sequence of literal characters. -/
def rchars : List Char → RE
  | [] => .eps
  | [c] => .lit c
  | c :: cs => .seq (.lit c) (rchars cs)

def rstr (s : String) : RE := rchars s.data

/-- Left-biased alternation of a non-empty pattern list. -/
def alts : List RE → RE
  | [] => .eps
  | [r] => r
  | r :: rs => .alt r (alts rs)

def rplus (a : RE) : RE := .seq a (.star a)

def wsCls : RE := .cls (fun c => c.isWhitespace)

def wsPlus : RE := rplus wsCls

def wsStar : RE := .star wsCls

/-- The regex dot: any character but a newline. -/
def dotCls : RE := .cls (fun c => c != '\n')

def dotPlus : RE := rplus dotCls

def grp (n : Nat) (a : RE) : RE := .group n a

/-- The ubiquitous capturing (.+) as group 1. -/
def g1dot : RE := grp 1 dotPlus

def digitCls : RE := .cls (fun c => c.isDigit)

def digitPlus : RE := rplus digitCls

def wordPlus : RE := rplus (.cls isWordChar)

def preference_patterns : List RE :=
  [ .seq (rstr "prefer") (.seq (.opt (.lit 's')) (.seq wsPlus g1dot)),
    .seq (rstr "like") (.seq (.opt (.lit 's')) (.seq wsPlus g1dot)),
    .seq (rstr "favorite") (.seq wsPlus g1dot),
    .seq (rstr "my") (.seq wsPlus (.seq (grp 1 dotPlus) (.seq wsPlus
      (.seq (rstr "is") (.seq wsPlus (grp 2 dotPlus)))))),
    .seq (rstr "call me") (.seq wsPlus g1dot),
    .seq (rstr "language") (.seq wsPlus (.seq (rstr "is")
      (.seq wsPlus (grp 1 wordPlus)))) ]

def constraint_patterns : List RE :=
  [ .seq (alts [rstr "only", rstr "must", rstr "should", rstr "need to"])
      (.seq wsPlus g1dot),
    .seq (alts [rstr "before", rstr "after", rstr "by"]) (.seq wsPlus
      (grp 1 (.seq digitPlus (.seq (.opt (.seq (.lit ':') digitPlus))
        (.opt (.seq wsStar
          (alts [rstr "AM", rstr "PM", rstr "am", rstr "pm"]))))))),
    .seq (alts [rstr "not available", rstr "busy", rstr "occupied"])
      (.seq wsPlus g1dot),
    .seq (alts [rstr "don\x27t", rstr "do not", rstr "never"])
      (.seq wsPlus g1dot) ]

def commitment_patterns : List RE :=
  [ .seq (alts [rstr "will", rstr "going to", rstr "planning to"])
      (.seq wsPlus g1dot),
    .seq (alts [rstr "call", rstr "email", rstr "text", rstr "message",
      rstr "contact"]) (.seq wsPlus g1dot),
    .seq (alts [rstr "remind me", rstr "schedule", rstr "set up"])
      (.seq wsPlus g1dot),
    .seq (alts [rstr "tomorrow", rstr "next week", rstr "later", rstr "soon"])
      (.seq wsPlus (.opt g1dot)) ]

def instruction_patterns : List RE :=
  [ .seq (alts [rstr "always", rstr "never", rstr "from now on"])
      (.seq wsPlus g1dot),
    .seq (alts [rstr "remember to", rstr "make sure to"]) (.seq wsPlus g1dot),
    .seq (alts [rstr "whenever", rstr "if"]) (.seq wsPlus g1dot) ]

def upperCls : RE := .cls (fun c => 'A' ≤ c && c ≤ 'Z')

def lowerCls : RE := .cls (fun c => 'a' ≤ c && c ≤ 'z')

/-- One capitalised word, [A-Z][a-z]+. -/
def capWord : RE := .seq upperCls (rplus lowerCls)

/-- The entity pattern \b([A-Z][a-z]+(?:\s+[A-Z][a-z]+)*)\b (no IGNORECASE). -/
def entityPattern : RE :=
  .seq .wb (.seq (grp 1 (.seq capWord (.star (.seq wsPlus capWord)))) .wb)

def fact_patterns : List RE :=
  [ .seq (grp 1 dotPlus) (.seq wsPlus
      (.seq (alts [rstr "is", rstr "are", rstr "was", rstr "were"])
        (.seq wsPlus (grp 2 dotPlus)))),
    .seq (rstr "my") (.seq wsPlus g1dot) ]

/-! ### The extraction driver (memory_extraction.py) -/

/-- The priority-ordered finer patterns of _parse_preference, with the key
each assigns. -/
def parsePrefPatterns : List (RE × String) :=
  [ (.seq (rstr "language") (.seq wsPlus (.seq (rstr "is")
      (.seq wsPlus (grp 1 wordPlus)))), "language"),
    (.seq (rstr "prefer") (.seq (.opt (.lit 's')) (.seq wsPlus g1dot)),
      "preference"),
    (.seq (rstr "favorite") (.seq wsPlus g1dot), "favorite"),
    (.seq (rstr "call me") (.seq wsPlus g1dot), "name") ]

/-- MemoryExtractor._parse_preference: first finer pattern that re.search
finds wins; fallback key "general" with the whole text as value. -/
def parsePreference (text : String) : String × String :=
  match parsePrefPatterns.findSome? (fun pk =>
    (reSearch true pk.1 text).map (fun caps =>
      (pk.2, String.mk ((caps.lookup 1).getD [])))) with
  | some kv => kv
  | none => ("general", text)

/-- The test pattern time|am|pm|\d+:\d+ of _extract_constraint_key. -/
def timeTestRE : RE :=
  alts [rstr "time", rstr "am", rstr "pm",
    .seq digitPlus (.seq (.lit ':') digitPlus)]

/-- The test pattern not available|busy of _extract_constraint_key. -/
def availTestRE : RE := alts [rstr "not available", rstr "busy"]

/-- MemoryExtractor._extract_constraint_key. -/
def extractConstraintKey (text : String) : String :=
  if reTest true timeTestRE text then "time_constraint"
  else if reTest true availTestRE text then "availability"
  else "general_constraint"

/-- The boost pattern language|prefer|favorite of _calculate_confidence. -/
def confBoostRE : RE := alts [rstr "language", rstr "prefer", rstr "favorite"]

/-- MemoryExtractor._calculate_confidence: base 0.8, minus 0.2 for content
shorter than 5 chars, plus 0.1 on the boost vocabulary, clamped to
[0.5, 0.99]. -/
def calcConfidence (content : String) : ℚ :=
  let base : ℚ := 8/10
  let base := if content.length < 5 then base - 2/10 else base
  let base := if reTest true confBoostRE content then base + 1/10 else base
  min (99/100) (max (5/10) base)

/-- Python str.split() with no separator: split on whitespace runs, no empty
words. -/
def pySplit (s : String) : List String :=
  (s.split (fun c => c.isWhitespace)).filter (fun w => w ≠ "")

def extract_preferences (text : String) : List Candidate :=
  preference_patterns.flatMap (fun pat =>
    (findIter true pat text).map (fun mr =>
      let content := String.mk mr.1
      let kv := parsePreference content
      { type := "preference", content := content, key := some kv.1,
        value := some kv.2, confidence := calcConfidence content,
        raw_text := text }))

def extract_constraints (text : String) : List Candidate :=
  constraint_patterns.flatMap (fun pat =>
    (findIter true pat text).map (fun mr =>
      let content := String.mk mr.1
      { type := "constraint", content := content,
        key := some (extractConstraintKey content),
        value := (mr.2.lookup 1).map String.mk,
        confidence := calcConfidence content, raw_text := text }))

def extract_commitments (text : String) : List Candidate :=
  commitment_patterns.flatMap (fun pat =>
    (findIter true pat text).map (fun mr =>
      let content := String.mk mr.1
      { type := "commitment", content := content,
        key := some "scheduled_action",
        value := (mr.2.lookup 1).map String.mk,
        confidence := calcConfidence content, raw_text := text }))

def extract_instructions (text : String) : List Candidate :=
  instruction_patterns.flatMap (fun pat =>
    (findIter true pat text).map (fun mr =>
      let content := String.mk mr.1
      { type := "instruction", content := content, key := some "instruction",
        value := (mr.2.lookup 1).map String.mk,
        confidence := calcConfidence content, raw_text := text }))

def entity_stoplist : List String := ["i", "my", "the", "a", "an"]

def extract_entities (text : String) : List Candidate :=
  (findIter false entityPattern text).filterMap (fun mr =>
    let entity := String.mk ((mr.2.lookup 1).getD [])
    if entity.toLower ∈ entity_stoplist then none
    else some { type := "entity", content := entity, key := some "entity_name",
                value := some entity, confidence := 7/10, raw_text := text })

def extract_facts (text : String) : List Candidate :=
  fact_patterns.flatMap (fun pat =>
    (findIter true pat text).filterMap (fun mr =>
      let content := String.mk mr.1
      if 10 < content.length ∧ 2 < (pySplit content).length then
        some { type := "fact", content := content, key := some "fact",
               value := some content, confidence := 6/10, raw_text := text }
      else none))

/-- MemoryExtractor.extract_memories: run the six rule families over the user
message (the assistant response is accepted but never read), then stamp
session, turn and timestamps onto every candidate.  `now` stands for
datetime.utcnow().isoformat(). -/
def extract_memories (user_message : String) (assistant_response : String)
    (turn_number : Int) (session_id : String) (now : String) :
    List Candidate :=
  let memories :=
    extract_preferences user_message ++ extract_constraints user_message ++
    extract_commitments user_message ++ extract_instructions user_message ++
    extract_entities user_message ++ extract_facts user_message
  memories.map (fun m =>
    { m with session_id := session_id, source_turn := turn_number,
             created_at := some now, last_accessed := none,
             access_count := 0 })

/-- MemoryExtractor.filter_memories. -/
def filter_memories (memories : List Candidate) (min_confidence : ℚ := 6/10) :
    List Candidate :=
  memories.filter (fun m => min_confidence ≤ m.confidence)

/-- How an f-string renders an optional field: Python str(None) is the
literal text None. -/
def pyShow : Option String → String
  | none => "None"
  | some s => s

/-- The fingerprint type:key:value of deduplicate_memories. -/
def fingerprint (m : Candidate) : String :=
  m.type ++ ":" ++ pyShow m.key ++ ":" ++ pyShow m.value

/-- The loop of deduplicate_memories with its seen-set accumulator. -/
def dedupGo : List String → List Candidate → List Candidate
  | _, [] => []
  | seen, m :: rest =>
    if fingerprint m ∈ seen then dedupGo seen rest
    else m :: dedupGo (fingerprint m :: seen) rest

/-- MemoryExtractor.deduplicate_memories: keep the first candidate per
fingerprint, in order. -/
def deduplicate_memories (memories : List Candidate) : List Candidate :=
  dedupGo [] memories

/-! ### The retriever (memory_retrieval.py, MemoryRetriever)

The retrieval weights of __init__ (recency 0.3, confidence 0.4, access 0.2,
semantic 0.1) and the type priorities are inlined as constants.  Scores use
real numbers because the code calls math.exp and math.log.  The access-count
side effect of retrieval (update_memory_access per returned row) is the
operation modelled above; retrieval itself is modelled as the returned
list. -/

/-- The type_priorities dict; .get with default 0.5 for unknown types. -/
def type_priorities (t : String) : ℚ :=
  if t = "instruction" then 1
  else if t = "preference" then 9/10
  else if t = "commitment" then 85/100
  else if t = "constraint" then 8/10
  else if t = "fact" then 7/10
  else if t = "entity" then 6/10
  else 5/10

/-- The stopword set of _calculate_semantic_similarity. -/
def stopwords : List String :=
  ["the", "a", "an", "and", "or", "but", "in", "on", "at", "to", "for",
   "of", "is", "are"]

/-- Lower-case, split on whitespace, remove stopwords, as a set of words. -/
def wordSet (s : String) : Finset String :=
  (pySplit s.toLower).toFinset \ stopwords.toFinset

/-- MemoryRetriever._calculate_semantic_similarity: Jaccard similarity of the
stopword-free word sets; 0 when either side is empty (or, vacuously, when
the union is empty). -/
noncomputable def semantic_similarity (memory_content query : String) : ℝ :=
  if wordSet memory_content = ∅ ∨ wordSet query = ∅ then 0
  else if 0 < (wordSet memory_content ∪ wordSet query).card then
    ((wordSet memory_content ∩ wordSet query).card : ℝ) /
      ((wordSet memory_content ∪ wordSet query).card : ℝ)
  else 0

/-- The access-count signal: log10(access_count + 1) clamped to at most 1. -/
noncomputable def access_score_of (access_count : Nat) : ℝ :=
  min 1 (Real.log ((access_count : ℝ) + 1) / Real.log 10)

/-- MemoryRetriever._calculate_relevance: the composite score
(0.3 recency + 0.4 confidence + 0.2 access + 0.1 semantic) * type priority,
clamped to at most 1.0, with recency = exp(-(current_turn - source_turn)/100)
(not clamped below for future source turns). -/
noncomputable def calculate_relevance (memory : MemRow) (current_turn : Int)
    (user_message : String) : ℝ :=
  min 1
    ((3/10 * Real.exp (-((current_turn - memory.source_turn : Int) : ℝ) / 100) +
      4/10 * ((memory.confidence : ℚ) : ℝ) +
      2/10 * access_score_of memory.access_count +
      1/10 * semantic_similarity memory.content user_message) *
      ((type_priorities memory.type : ℚ) : ℝ))

/-- A retrieved row annotated with its relevance_score. -/
abbrev Scored := MemRow × ℝ

/-- Descending order on relevance_score (the sort of
retrieve_relevant_memories, reverse=True). -/
def relDesc (a b : Scored) : Prop := b.2 ≤ a.2

noncomputable instance : DecidableRel relDesc :=
  fun a b => inferInstanceAs (Decidable (_ ≤ _))

instance : IsTotal Scored relDesc := ⟨fun a b => le_total b.2 a.2⟩

instance : IsTrans Scored relDesc := ⟨fun _ _ _ h h2 => le_trans h2 h⟩

/-- The first loop of _apply_diversity_filter: walk the sorted list; admit a
record when its type was admitted fewer than twice and (its key is unseen or
fewer than max_count/2 records were admitted); stop at max_count. -/
def diversityPhase1 (max_count : Nat) :
    List Scored → (String → Nat) → List (Option String) → List Scored →
    List Scored
  | [], _, _, acc => acc
  | m :: rest, type_counts, seen_keys, acc =>
    if type_counts m.1.type < 2 then
      if m.1.key ∉ seen_keys ∨ acc.length < max_count / 2 then
        if max_count ≤ acc.length + 1 then acc ++ [m]
        else
          diversityPhase1 max_count rest
            (fun ty => if ty = m.1.type then type_counts ty + 1
              else type_counts ty)
            (m.1.key :: seen_keys) (acc ++ [m])
      else diversityPhase1 max_count rest type_counts seen_keys acc
    else diversityPhase1 max_count rest type_counts seen_keys acc

/-- The second loop of _apply_diversity_filter: fill remaining slots in
sorted order with records not yet admitted. -/
noncomputable def diversityPhase2 (max_count : Nat) :
    List Scored → List Scored → List Scored
  | [], acc => acc
  | m :: rest, acc =>
    if m ∈ acc then diversityPhase2 max_count rest acc
    else if max_count ≤ acc.length + 1 then acc ++ [m]
    else diversityPhase2 max_count rest (acc ++ [m])

/-- MemoryRetriever._apply_diversity_filter (the source computes the first
loop once; its result appears twice here only because the model is written
without a local binding). -/
noncomputable def apply_diversity_filter (memories : List Scored)
    (max_count : Nat) : List Scored :=
  if memories.length ≤ max_count then memories
  else if (diversityPhase1 max_count memories (fun _ => 0) [] []).length <
      max_count then
    diversityPhase2 max_count memories
      (diversityPhase1 max_count memories (fun _ => 0) [] [])
  else diversityPhase1 max_count memories (fun _ => 0) [] []

/-- The scoring loop of retrieve_relevant_memories: keep each session row
whose relevance is at least min_relevance, annotated with its score. -/
noncomputable def scoreSession (s : Store) (session_id : String)
    (current_turn : Int) (user_message : String) (min_relevance : ℝ) :
    List Scored :=
  (get_session_memories s session_id none 0).filterMap (fun m =>
    if min_relevance ≤ calculate_relevance m current_turn user_message then
      some (m, calculate_relevance m current_turn user_message)
    else none)

/-- MemoryRetriever.retrieve_relevant_memories: score, threshold, sort
descending, diversity-filter, truncate to max_memories. -/
noncomputable def retrieve_relevant_memories (s : Store) (session_id : String)
    (current_turn : Int) (user_message : String) (max_memories : Nat := 5)
    (min_relevance : ℝ := 3/10) : List Scored :=
  if (get_session_memories s session_id none 0).isEmpty then []
  else
    (apply_diversity_filter
      ((scoreSession s session_id current_turn user_message
        min_relevance).insertionSort relDesc)
      max_memories).take max_memories

/-- Descending order on the Python key tuple (confidence, -source_turn) of
retrieve_by_type (list.sort key=..., reverse=True). -/
def confTurnDesc (a b : MemRow) : Prop :=
  b.confidence < a.confidence ∨
    (b.confidence = a.confidence ∧ -b.source_turn ≤ -a.source_turn)

instance : DecidableRel confTurnDesc :=
  fun a b => inferInstanceAs (Decidable (_ ∨ _))

instance : IsTotal MemRow confTurnDesc := ⟨fun a b => by
  rcases lt_trichotomy b.confidence a.confidence with h | h | h
  · exact Or.inl (Or.inl h)
  · rcases le_total (-b.source_turn) (-a.source_turn) with h2 | h2
    · exact Or.inl (Or.inr ⟨h, h2⟩)
    · exact Or.inr (Or.inr ⟨h.symm, h2⟩)
  · exact Or.inr (Or.inl h)⟩

instance : IsTrans MemRow confTurnDesc := ⟨fun a b c hab hbc => by
  rcases hab with h1 | ⟨h1, h1s⟩ <;> rcases hbc with h2 | ⟨h2, h2s⟩
  · exact Or.inl (lt_trans h2 h1)
  · exact Or.inl (by rw [h2]; exact h1)
  · exact Or.inl (by rw [← h1]; exact h2)
  · exact Or.inr ⟨h2.trans h1, le_trans h2s h1s⟩⟩

/-- MemoryRetriever.retrieve_by_type: session rows of one type, sorted by
(confidence, -source_turn) descending, truncated. -/
def retrieve_by_type (s : Store) (session_id : String) (memory_type : String)
    (max_memories : Nat := 10) : List MemRow :=
  ((get_session_memories s session_id (some memory_type) 0).insertionSort
    confTurnDesc).take max_memories

/-- MemoryRetriever.retrieve_critical_memories: up to 3 instructions, up to 3
commitments, and the preferences with confidence above 0.8 among the top 5
preferences.  current_turn is accepted but never read (as in the source). -/
def retrieve_critical_memories (s : Store) (session_id : String)
    (current_turn : Int) : List MemRow :=
  retrieve_by_type s session_id "instruction" 3 ++
  retrieve_by_type s session_id "commitment" 3 ++
  (retrieve_by_type s session_id "preference" 5).filter
    (fun p => (8 : ℚ)/10 < p.confidence)

/-! ### Specification-side predicates and concrete instances used by the
claim theorems -/

/-- Reachable-store invariant: AUTOINCREMENT ids are at least 1 and below the
counter, so the counter value is always fresh and -1 is never a valid id. -/
def StoreWF (s : Store) : Prop :=
  1 ≤ s.next_id ∧ ∀ r ∈ s.rows, 1 ≤ r.id ∧ r.id < s.next_id

instance (s : Store) : Decidable (StoreWF s) := by
  unfold StoreWF
  infer_instance

/-- The number of records whose fingerprint already occurred earlier in the
sequence (continuing a given seen-set), the k of the dedup claim. -/
def laterDupCount : List String → List Candidate → Nat
  | _, [] => 0
  | seen, m :: rest =>
    if fingerprint m ∈ seen then laterDupCount seen rest + 1
    else laterDupCount (fingerprint m :: seen) rest

/-- Every score in a retrieval result is at least the bound (stated
recursively so the retrieval contract theorem carries no hypotheses). -/
def AllScoresGe (bound : ℝ) : List Scored → Prop
  | [] => True
  | x :: xs => bound ≤ x.2 ∧ AllScoresGe bound xs

/-- A query without the SQL LIKE wildcards percent and underscore. -/
def wildcardFree (q : String) : Prop := ∀ c ∈ q.data, c ≠ '%' ∧ c ≠ '_'

instance (q : String) : Decidable (wildcardFree q) := by
  unfold wildcardFree
  infer_instance

/-- Case-insensitive substring containment, the claim-side reading of the
text-search contract. -/
def containsCI (hay needle : String) : Prop :=
  (needle.data.map sqliteLower) <:+: (hay.data.map sqliteLower)

instance (hay needle : String) : Decidable (containsCI hay needle) := by
  unfold containsCI
  exact List.decidableInfix _ _

/-- A generic concrete row builder for the concrete instances below. -/
def mkRow (i : Nat) (sid ty content : String) (k v : Option String)
    (conf : ℚ) (st : Int) : MemRow :=
  { id := i, session_id := sid, type := ty, content := content, key := k,
    value := v, confidence := conf, source_turn := st,
    created_at := some "T0", last_accessed := none, access_count := 0,
    raw_text := content }

/-- Candidate with an absent value, as extracted from "tomorrow " (C1). -/
def noneValCand : Candidate :=
  { type := "commitment", content := "tomorrow ",
    key := some "scheduled_action", value := none, confidence := 8/10,
    raw_text := "tomorrow ", session_id := "s1", source_turn := 1,
    created_at := some "T0" }

/-- Fully keyed candidate for the C1 witness. -/
def keyedCand : Candidate :=
  { type := "preference", content := "language is Kannada",
    key := some "language", value := some "Kannada", confidence := 9/10,
    raw_text := "my language is Kannada", session_id := "s1",
    source_turn := 2, created_at := some "T0" }

/-- A second fully keyed candidate, not conflicting with keyedCand. -/
def keyedCand2 : Candidate :=
  { type := "preference", content := "call me Sam",
    key := some "name", value := some "Sam", confidence := 9/10,
    raw_text := "call me Sam", session_id := "s1",
    source_turn := 3, created_at := some "T0" }

/-- Concrete store for the C5 counterexample: content contains "10" but not
the literal query "10%". -/
def pctRow : MemRow :=
  mkRow 1 "s1" "fact" "10 percent off" (some "fact") (some "discount") (6/10) 1

def pctStore : Store := { rows := [pctRow], next_id := 2 }

/-- Concrete store for the C5 witness. -/
def langRow1 : MemRow :=
  mkRow 1 "s1" "preference" "preferred Language is Kannada" (some "language")
    (some "Kannada") (9/10) 1

def langRow2 : MemRow :=
  mkRow 2 "s1" "fact" "lives in Bengaluru" (some "fact") (some "city") (6/10) 2

def langStore : Store := { rows := [langRow1, langRow2], next_id := 3 }

/-- Concrete store for the C6 witness. -/
def accRow : MemRow :=
  mkRow 1 "s1" "preference" "likes tea" (some "preference") (some "tea")
    (8/10) 1

def accRow2 : MemRow :=
  mkRow 2 "s1" "fact" "works remotely" (some "fact") (some "remote") (6/10) 2

def accStore : Store := { rows := [accRow, accRow2], next_id := 3 }

/-- Concrete list for the C7 witness: the first and third candidate share a
fingerprint. -/
def dupA : Candidate :=
  { type := "preference", content := "prefers tea", key := some "preference",
    value := some "tea", confidence := 9/10, raw_text := "prefers tea" }

def dupB : Candidate :=
  { type := "fact", content := "works remotely", key := some "fact",
    value := some "works remotely", confidence := 6/10,
    raw_text := "works remotely" }

def dupA2 : Candidate :=
  { type := "preference", content := "still prefers tea",
    key := some "preference", value := some "tea", confidence := 8/10,
    raw_text := "still prefers tea" }

def dupList : List Candidate := [dupA, dupB, dupA2]

/-- Concrete store for the C8 counterexample and witness: two rows in
session "a", none in session "b". -/
def statRow1 : MemRow :=
  mkRow 1 "a" "fact" "x is y" (some "fact") (some "x is y") (1/2) 5

def statRow2 : MemRow :=
  mkRow 2 "a" "preference" "likes tea" (some "preference") (some "tea")
    (3/4) 2

def statStore : Store := { rows := [statRow1, statRow2], next_id := 3 }

/-- Concrete store for the C4 counterexample: four instruction rows, so one
cannot be returned by retrieve_critical_memories. -/
def insRow (i : Nat) (conf : ℚ) (st : Int) : MemRow :=
  mkRow i "s" "instruction" "always reply briefly" (some "instruction")
    (some "reply briefly") conf st

def fourInsStore : Store :=
  { rows := [insRow 1 (9/10) 1, insRow 2 (85/100) 2, insRow 3 (8/10) 3,
      insRow 4 (7/10) 4], next_id := 5 }

/-- Concrete store for the C4 witness: one instruction, one commitment, one
high-confidence preference. -/
def critStore : Store :=
  { rows :=
      [ mkRow 1 "s" "instruction" "always reply briefly" (some "instruction")
          (some "reply briefly") (9/10) 1,
        mkRow 2 "s" "commitment" "call tomorrow" (some "scheduled_action")
          (some "tomorrow") (8/10) 2,
        mkRow 3 "s" "preference" "language is Kannada" (some "language")
          (some "Kannada") (9/10) 3 ],
    next_id := 4 }

/-- The preference row of critStore. -/
def critPref : MemRow :=
  mkRow 3 "s" "preference" "language is Kannada" (some "language")
    (some "Kannada") (9/10) 3

/-- The candidate stamped by extract_memories on "tomorrow " (C10). -/
def tomorrowCand : Candidate :=
  { type := "commitment", content := "tomorrow ",
    key := some "scheduled_action", value := none, confidence := 8/10,
    raw_text := "tomorrow ", session_id := "s1", source_turn := 3,
    created_at := some "T0", last_accessed := none, access_count := 0 }

/-- Rows for the C3 counterexample: identical except source_turn, both in
the future of current_turn 0. -/
def futRow (st : Int) : MemRow :=
  { id := 1, session_id := "s", type := "fact", content := "", key := some "fact",
    value := some "", confidence := 0, source_turn := st,
    created_at := some "T0", last_accessed := none, access_count := 0,
    raw_text := "" }

/-- Base row for the C3 witness. -/
def pastRow : MemRow :=
  mkRow 1 "s" "preference" "likes tea" (some "preference") (some "tea")
    (8/10) 0

/-! ## Helper lemmas -/

theorem find?_map_of_pred (u : MemRow → MemRow) (p : MemRow → Bool)
    (hp : ∀ r, p (u r) = p r) :
    ∀ l : List MemRow, (l.map u).find? p = (l.find? p).map u := by
  intro l
  induction l with
  | nil => rfl
  | cons x t ih =>
    simp only [List.map_cons]
    cases hc : p x with
    | true =>
      rw [List.find?_cons_of_pos _ ((hp x).trans hc),
        List.find?_cons_of_pos _ hc]
      rfl
    | false =>
      rw [List.find?_cons_of_neg, List.find?_cons_of_neg, ih]
      · simp [hc]
      · simp [hp, hc]

/-- The row rewrite of update_memory_access. -/
def updRow (mid : Nat) (now : String) (r : MemRow) : MemRow :=
  if r.id = mid then
    { r with last_accessed := some now, access_count := r.access_count + 1 }
  else r

theorem update_memory_access_eq (s : Store) (mid : Nat) (now : String) :
    update_memory_access s mid now =
      { s with rows := s.rows.map (updRow mid now) } := rfl

theorem updRow_id (mid : Nat) (now : String) (r : MemRow) :
    (updRow mid now r).id = r.id := by
  unfold updRow; split <;> rfl

theorem get_memory_update_hit (s : Store) (mid : Nat) (now : String)
    (r : MemRow) (hr : get_memory s mid = some r) :
    get_memory (update_memory_access s mid now) mid =
      some { r with last_accessed := some now,
                    access_count := r.access_count + 1 } := by
  have hid : r.id = mid := by
    have h := List.find?_some hr
    simpa using h
  unfold get_memory at hr ⊢
  rw [update_memory_access_eq]
  simp only
  rw [find?_map_of_pred _ _ (fun x => by rw [updRow_id]), hr]
  simp [updRow, hid]

theorem get_memory_update_iter (s : Store) (mid : Nat) (now : String)
    (r : MemRow) (hr : get_memory s mid = some r) :
    ∀ k, get_memory ((fun st => update_memory_access st mid now)^[k + 1] s) mid
      = some { r with last_accessed := some now,
                      access_count := r.access_count + (k + 1) } := by
  intro k
  induction k with
  | zero => simpa using get_memory_update_hit s mid now r hr
  | succ n ih =>
    rw [Function.iterate_succ_apply']
    have h := get_memory_update_hit _ mid now _ ih
    simpa using h

theorem dedupGo_cons (seen : List String) (m : Candidate)
    (rest : List Candidate) :
    dedupGo seen (m :: rest) =
      if fingerprint m ∈ seen then dedupGo seen rest
      else m :: dedupGo (fingerprint m :: seen) rest := rfl

theorem dedupGo_sublist :
    ∀ (ms : List Candidate) (seen : List String), (dedupGo seen ms).Sublist ms
  | [], _ => List.Sublist.refl []
  | m :: rest, seen => by
    rw [dedupGo_cons]
    split
    · exact (dedupGo_sublist rest seen).cons m
    · exact (dedupGo_sublist rest _).cons₂ m

theorem dedupGo_length :
    ∀ (ms : List Candidate) (seen : List String),
      (dedupGo seen ms).length + laterDupCount seen ms = ms.length
  | [], _ => rfl
  | m :: rest, seen => by
    rw [dedupGo_cons]
    unfold laterDupCount
    by_cases hm : fingerprint m ∈ seen
    · have h := dedupGo_length rest seen
      rw [if_pos hm, if_pos hm]
      simp only [List.length_cons]
      omega
    · have h := dedupGo_length rest (fingerprint m :: seen)
      rw [if_neg hm, if_neg hm]
      simp only [List.length_cons]
      omega

theorem dedupGo_fresh :
    ∀ (ms : List Candidate) (seen : List String),
      (∀ x ∈ dedupGo seen ms, fingerprint x ∉ seen) ∧
      ((dedupGo seen ms).map fingerprint).Nodup
  | [], _ => ⟨fun x hx => absurd hx (List.not_mem_nil x), List.nodup_nil⟩
  | m :: rest, seen => by
    rw [dedupGo_cons]
    by_cases hm : fingerprint m ∈ seen
    · rw [if_pos hm]
      exact dedupGo_fresh rest seen
    · rw [if_neg hm]
      obtain ⟨ih1, ih2⟩ := dedupGo_fresh rest (fingerprint m :: seen)
      constructor
      · intro x hx
        rcases List.mem_cons.mp hx with rfl | hx
        · exact hm
        · exact fun hs => ih1 x hx (List.mem_cons_of_mem _ hs)
      · rw [List.map_cons, List.nodup_cons]
        refine ⟨?_, ih2⟩
        intro hmem
        obtain ⟨x, hx, hfx⟩ := List.mem_map.mp hmem
        exact ih1 x hx (hfx ▸ List.mem_cons_self _ _)

theorem dedupGo_idem :
    ∀ (ms : List Candidate) (seen : List String),
      dedupGo seen (dedupGo seen ms) = dedupGo seen ms
  | [], _ => rfl
  | m :: rest, seen => by
    by_cases hm : fingerprint m ∈ seen
    · rw [dedupGo_cons, if_pos hm]
      exact dedupGo_idem rest seen
    · rw [dedupGo_cons, if_neg hm, dedupGo_cons, if_neg hm,
        dedupGo_idem rest (fingerprint m :: seen)]

theorem dedupGo_find? :
    ∀ (ms : List Candidate) (seen : List String) (m : Candidate),
      fingerprint m ∉ seen →
        (dedupGo seen ms).find? (fun x => fingerprint x == fingerprint m) =
          ms.find? (fun x => fingerprint x == fingerprint m)
  | [], _, _, _ => rfl
  | h :: rest, seen, m, hm => by
    rw [dedupGo_cons]
    by_cases hin : fingerprint h ∈ seen
    · rw [if_pos hin]
      have hne : (fingerprint h == fingerprint m) = false := by
        rw [beq_eq_false_iff_ne]
        intro he
        exact hm (he ▸ hin)
      rw [@List.find?_cons_of_neg _ (fun x => fingerprint x == fingerprint m)
        h rest (by simp [hne]), dedupGo_find? rest seen m hm]
    · rw [if_neg hin]
      cases hfp : (fingerprint h == fingerprint m) with
      | true =>
        rw [@List.find?_cons_of_pos _
            (fun x => fingerprint x == fingerprint m) h
            (dedupGo (fingerprint h :: seen) rest) hfp,
          @List.find?_cons_of_pos _
            (fun x => fingerprint x == fingerprint m) h rest hfp]
      | false =>
        rw [@List.find?_cons_of_neg _
            (fun x => fingerprint x == fingerprint m) h
            (dedupGo (fingerprint h :: seen) rest) (by simp [hfp]),
          @List.find?_cons_of_neg _
            (fun x => fingerprint x == fingerprint m) h rest (by simp [hfp])]
        refine dedupGo_find? rest (fingerprint h :: seen) m ?_
        intro hc
        rcases List.mem_cons.mp hc with he | hs
        · rw [beq_eq_false_iff_ne] at hfp
          exact hfp he.symm
        · exact hm hs

theorem sqlMin_cons (x : Int) (xs : List Int) :
    sqlMin (x :: xs) =
      match sqlMin xs with
      | none => some x
      | some m => some (min x m) := rfl

theorem sqlMax_cons (x : Int) (xs : List Int) :
    sqlMax (x :: xs) =
      match sqlMax xs with
      | none => some x
      | some m => some (max x m) := rfl

theorem sqlMin_spec (l : List Int) (hl : l ≠ []) :
    ∃ e, sqlMin l = some e ∧ e ∈ l ∧ ∀ t ∈ l, e ≤ t := by
  induction l with
  | nil => exact absurd rfl hl
  | cons x xs ih =>
    cases hxs : xs with
    | nil =>
      subst hxs
      exact ⟨x, rfl, by simp, by simp⟩
    | cons y ys =>
      subst hxs
      obtain ⟨e, he, hmem, hle⟩ := ih (by simp)
      refine ⟨min x e, ?_, ?_, ?_⟩
      · rw [sqlMin_cons, he]
      · rcases le_total x e with h | h
        · simp [min_eq_left h]
        · rw [min_eq_right h]
          exact List.mem_cons_of_mem _ hmem
      · intro t ht
        rcases List.mem_cons.mp ht with rfl | ht
        · exact min_le_left _ _
        · exact le_trans (min_le_right _ _) (hle t ht)

theorem sqlMax_spec (l : List Int) (hl : l ≠ []) :
    ∃ e, sqlMax l = some e ∧ e ∈ l ∧ ∀ t ∈ l, t ≤ e := by
  induction l with
  | nil => exact absurd rfl hl
  | cons x xs ih =>
    cases hxs : xs with
    | nil =>
      subst hxs
      exact ⟨x, rfl, by simp, by simp⟩
    | cons y ys =>
      subst hxs
      obtain ⟨e, he, hmem, hle⟩ := ih (by simp)
      refine ⟨max x e, ?_, ?_, ?_⟩
      · rw [sqlMax_cons, he]
      · rcases le_total x e with h | h
        · rw [max_eq_right h]
          exact List.mem_cons_of_mem _ hmem
        · simp [max_eq_left h]
      · intro t ht
        rcases List.mem_cons.mp ht with rfl | ht
        · exact le_max_left _ _
        · exact le_trans (hle t ht) (le_max_right _ _)

theorem claimTupleEq_eq_sqlConflict (r : MemRow) (m : Candidate)
    (k v : String) (hk : m.key = some k) (hv : m.value = some v) :
    claimTupleEq r m = sqlConflict r m := by
  simp only [claimTupleEq, sqlConflict, hk, hv]
  cases r.key <;> cases r.value <;> simp [optSqlEq]

theorem likeM_cons (c : Char) (p t : List Char) :
    likeM (c :: p) t =
      if c = '%' then (t.tails).any (fun s => likeM p s)
      else
        match t with
        | [] => false
        | d :: t2 =>
          (if c = '_' then true else sqliteLower c == sqliteLower d) &&
            likeM p t2 := rfl

theorem likeM_percent (p t : List Char) :
    likeM ('%' :: p) t = true ↔ ∃ s, s <:+ t ∧ likeM p s = true := by
  rw [likeM_cons, if_pos rfl]
  simp [List.any_eq_true, List.mem_tails]

theorem likeM_literal_percent (q : List Char)
    (hq : ∀ c ∈ q, c ≠ '%' ∧ c ≠ '_') (s : List Char) :
    likeM (q ++ ['%']) s = true ↔
      (q.map sqliteLower) <+: (s.map sqliteLower) := by
  induction q generalizing s with
  | nil =>
    simp only [List.nil_append, List.map_nil]
    constructor
    · intro _
      exact List.nil_prefix
    · intro _
      rw [likeM_percent]
      exact ⟨[], List.nil_suffix, rfl⟩
  | cons c q ih =>
    have hc := hq c (List.mem_cons_self _ _)
    rw [List.cons_append, likeM_cons, if_neg hc.1]
    cases s with
    | nil => simp
    | cons d s2 =>
      simp only [List.map_cons, List.cons_prefix_cons, if_neg hc.2,
        Bool.and_eq_true, beq_iff_eq]
      rw [ih (fun x hx => hq x (List.mem_cons_of_mem _ hx))]

theorem likeM_pattern_iff (q t : List Char)
    (hq : ∀ c ∈ q, c ≠ '%' ∧ c ≠ '_') :
    likeM ('%' :: (q ++ ['%'])) t = true ↔
      (q.map sqliteLower) <:+: (t.map sqliteLower) := by
  rw [likeM_percent]
  constructor
  · rintro ⟨s, hs, hm⟩
    have hp := (likeM_literal_percent q hq s).mp hm
    exact hp.isInfix.trans (hs.map sqliteLower).isInfix
  · intro hinf
    obtain ⟨pre, post, hsplit⟩ := hinf
    refine ⟨t.drop pre.length, List.drop_suffix _ _, ?_⟩
    rw [likeM_literal_percent q hq]
    have hmap : (t.drop pre.length).map sqliteLower =
        (q.map sqliteLower) ++ post := by
      rw [List.map_drop, ← hsplit, List.append_assoc, List.drop_left]
    rw [hmap]
    exact List.prefix_append _ _

theorem rowLikeMatch_iff (pat : List Char) (r : MemRow) :
    rowLikeMatch pat r = true ↔
      likeM pat r.content.data = true ∨
        ∃ v, r.value = some v ∧ likeM pat v.data = true := by
  unfold rowLikeMatch
  cases hv : r.value <;> simp [hv]

theorem text_search_eq (q : String) (osid : Option String) (k : Nat)
    (s : Store) :
    text_search q osid k s =
      ((s.rows.filter (fun r =>
        (match osid with
         | some sid => r.session_id == sid
         | none => true) &&
          rowLikeMatch ('%' :: (q.data ++ ['%'])) r)).insertionSort
        confDesc).take k := rfl

theorem AllScoresGe_iff (bound : ℝ) (l : List Scored) :
    AllScoresGe bound l ↔ ∀ x ∈ l, bound ≤ x.2 := by
  induction l with
  | nil => simp [AllScoresGe]
  | cons x xs ih => simp [AllScoresGe, ih]

theorem mem_diversityPhase1 (mc : Nat) :
    ∀ (l : List Scored) (tc : String → Nat) (seen : List (Option String))
      (acc : List Scored) (x : Scored),
      x ∈ diversityPhase1 mc l tc seen acc → x ∈ l ∨ x ∈ acc
  | [], _, _, _, _, hx => Or.inr hx
  | m :: rest, tc, seen, acc, x, hx => by
    unfold diversityPhase1 at hx
    split at hx
    · split at hx
      · split at hx
        · rcases List.mem_append.mp hx with h | h
          · exact Or.inr h
          · exact Or.inl (List.mem_cons.mpr
              (Or.inl (List.mem_singleton.mp h)))
        · rcases mem_diversityPhase1 mc rest _ _ _ x hx with h | h
          · exact Or.inl (List.mem_cons_of_mem _ h)
          · rcases List.mem_append.mp h with h2 | h2
            · exact Or.inr h2
            · exact Or.inl (List.mem_cons.mpr
                (Or.inl (List.mem_singleton.mp h2)))
      · rcases mem_diversityPhase1 mc rest _ _ _ x hx with h | h
        · exact Or.inl (List.mem_cons_of_mem _ h)
        · exact Or.inr h
    · rcases mem_diversityPhase1 mc rest _ _ _ x hx with h | h
      · exact Or.inl (List.mem_cons_of_mem _ h)
      · exact Or.inr h

theorem mem_diversityPhase2 (mc : Nat) :
    ∀ (l acc : List Scored) (x : Scored),
      x ∈ diversityPhase2 mc l acc → x ∈ l ∨ x ∈ acc
  | [], _, _, hx => Or.inr hx
  | m :: rest, acc, x, hx => by
    unfold diversityPhase2 at hx
    split at hx
    · rcases mem_diversityPhase2 mc rest _ x hx with h | h
      · exact Or.inl (List.mem_cons_of_mem _ h)
      · exact Or.inr h
    · split at hx
      · rcases List.mem_append.mp hx with h | h
        · exact Or.inr h
        · exact Or.inl (List.mem_cons.mpr (Or.inl (List.mem_singleton.mp h)))
      · rcases mem_diversityPhase2 mc rest _ x hx with h | h
        · exact Or.inl (List.mem_cons_of_mem _ h)
        · rcases List.mem_append.mp h with h2 | h2
          · exact Or.inr h2
          · exact Or.inl (List.mem_cons.mpr
              (Or.inl (List.mem_singleton.mp h2)))

theorem mem_apply_diversity_filter (l : List Scored) (mc : Nat) (x : Scored)
    (hx : x ∈ apply_diversity_filter l mc) : x ∈ l := by
  unfold apply_diversity_filter at hx
  split at hx
  · exact hx
  · split at hx
    · rcases mem_diversityPhase2 mc l _ x hx with h | h
      · exact h
      · rcases mem_diversityPhase1 mc l _ _ _ x h with h2 | h2
        · exact h2
        · exact absurd h2 (List.not_mem_nil x)
    · rcases mem_diversityPhase1 mc l _ _ _ x hx with h | h
      · exact h
      · exact absurd h (List.not_mem_nil x)

theorem scoreSession_ge (s : Store) (sid : String) (ct : Int) (q : String)
    (minR : ℝ) : ∀ x ∈ scoreSession s sid ct q minR, minR ≤ x.2 := by
  intro x hx
  unfold scoreSession at hx
  obtain ⟨m, _, hsome⟩ := List.mem_filterMap.mp hx
  split at hsome
  · rename_i hge
    cases Option.some.inj hsome
    exact hge
  · exact absurd hsome (by simp)

theorem type_priorities_nonneg (t : String) : 0 ≤ type_priorities t := by
  unfold type_priorities
  split_ifs <;> norm_num

theorem access_score_of_zero : access_score_of 0 = 0 := by
  unfold access_score_of
  rw [Nat.cast_zero, zero_add, Real.log_one, zero_div]
  exact min_eq_right zero_le_one

theorem semantic_similarity_empty_left (q : String) :
    semantic_similarity "" q = 0 := by
  unfold semantic_similarity
  rw [if_pos (Or.inl (by with_unfolding_all decide))]

theorem get_session_memories_eq (s : Store) (sid : String)
    (oty : Option String) (mc : ℚ) :
    get_session_memories s sid oty mc =
      (s.rows.filter (fun r =>
        r.session_id == sid &&
          (match oty with
           | some t => r.type == t
           | none => true) &&
          mc ≤ r.confidence)).insertionSort turnAsc := rfl

theorem mem_get_session_memories_some (s : Store) (sid ty : String)
    (r : MemRow) :
    r ∈ get_session_memories s sid (some ty) 0 ↔
      r ∈ s.rows ∧ r.session_id = sid ∧ r.type = ty ∧
        (0 : ℚ) ≤ r.confidence := by
  rw [get_session_memories_eq, List.mem_insertionSort, List.mem_filter]
  simp [Bool.and_eq_true, beq_iff_eq, and_assoc]

theorem mem_retrieve_by_type_of (s : Store) (sid ty : String) (k : Nat)
    (r : MemRow)
    (hlen : (get_session_memories s sid (some ty) 0).length ≤ k)
    (hr : r ∈ get_session_memories s sid (some ty) 0) :
    r ∈ retrieve_by_type s sid ty k := by
  unfold retrieve_by_type
  rw [List.take_of_length_le]
  · exact (List.mem_insertionSort confTurnDesc).mpr hr
  · rw [(List.perm_insertionSort confTurnDesc _).length_eq]
    exact hlen

/-! ## Claim theorems -/

/-- C1 counterexample: the tuple-uniqueness claim fails on records with an
absent (NULL) value, because SQLite UNIQUE treats NULLs as distinct: after
storing noneValCand, a row whose claim-level tuple equals noneValCand exists,
yet a second insert of noneValCand returns the fresh id 2 (not -1) and the
table ends up with two rows for that tuple. -/
theorem store_memory_counterexample :
    (∃ r ∈ (store_memory emptyStore noneValCand).2.rows,
      claimTupleEq r noneValCand = true) ∧
    (store_memory (store_memory emptyStore noneValCand).2 noneValCand).1 = 2 ∧
    (store_memory (store_memory emptyStore noneValCand).2 noneValCand).1
      ≠ -1 ∧
    (store_memory (store_memory emptyStore noneValCand).2
      noneValCand).2.rows.length = 2 := by
  decide

/-- C1 (amended): for records whose key and value are both present, inserting
a record whose (session_id, type, key, value, source_turn) tuple already
exists leaves the table unchanged and returns the sentinel -1, distinct from
every valid id; a non-duplicate record gets the fresh counter id (at least 1,
distinct from every stored id) and its row is appended.  Records with an
absent key or value escape the uniqueness constraint (see the
counterexample). -/
theorem store_memory_spec (s : Store) (m : Candidate) (k v : String)
    (hw : StoreWF s) (hk : m.key = some k) (hv : m.value = some v) :
    ((∃ r ∈ s.rows, claimTupleEq r m = true) → store_memory s m = (-1, s)) ∧
    ((∀ r ∈ s.rows, claimTupleEq r m = false) →
      (store_memory s m).1 = (s.next_id : Int) ∧
      1 ≤ (store_memory s m).1 ∧
      (store_memory s m).1 ≠ -1 ∧
      (∀ r ∈ s.rows, (r.id : Int) ≠ (store_memory s m).1) ∧
      (store_memory s m).2.rows = s.rows ++ [rowOf s.next_id m] ∧
      StoreWF (store_memory s m).2) := by
  have hEq : ∀ r, claimTupleEq r m = sqlConflict r m := fun r =>
    claimTupleEq_eq_sqlConflict r m k v hk hv
  constructor
  · rintro ⟨r, hr, hc⟩
    have hany : s.rows.any (fun r => sqlConflict r m) = true :=
      List.any_eq_true.mpr ⟨r, hr, (hEq r) ▸ hc⟩
    simp [store_memory, hany]
  · intro hno
    have hany : s.rows.any (fun r => sqlConflict r m) = false := by
      rw [List.any_eq_false]
      intro r hr
      rw [← hEq r, hno r hr]
      simp
    have hni : 1 ≤ s.next_id := hw.1
    have hni2 : (1 : Int) ≤ (s.next_id : Int) := by exact_mod_cast hni
    have hsm : store_memory s m =
        ((s.next_id : Int),
          { rows := s.rows ++ [rowOf s.next_id m],
            next_id := s.next_id + 1 }) := by
      simp [store_memory, hany]
    rw [hsm]
    dsimp only
    refine ⟨rfl, hni2,
      by intro hcontra; rw [hcontra] at hni2; norm_num at hni2, ?_, rfl, ?_⟩
    · intro r hr
      have hlt := (hw.2 r hr).2
      intro hcontra
      have heq : r.id = s.next_id := by exact_mod_cast hcontra
      omega
    · refine ⟨show 1 ≤ s.next_id + 1 by omega, ?_⟩
      intro r hr
      rcases List.mem_append.mp hr with hr2 | hr2
      · exact ⟨(hw.2 r hr2).1, Nat.lt_succ_of_lt (hw.2 r hr2).2⟩
      · rcases List.mem_singleton.mp hr2 with rfl
        exact ⟨hni, Nat.lt_succ_self _⟩

/-- C1 witness: on a store holding keyedCand, re-inserting keyedCand is a
no-op returning -1, while inserting the distinct keyedCand2 returns id 2. -/
theorem store_memory_spec_witness :
    store_memory (store_memory emptyStore keyedCand).2 keyedCand =
      (-1, (store_memory emptyStore keyedCand).2) ∧
    (store_memory (store_memory emptyStore keyedCand).2 keyedCand2).1 = 2 := by
  constructor
  · exact (store_memory_spec (store_memory emptyStore keyedCand).2 keyedCand
      "language" "Kannada" (by decide) rfl rfl).1 (by decide)
  · exact ((store_memory_spec (store_memory emptyStore keyedCand).2 keyedCand2
      "name" "Sam" (by decide) rfl rfl).2 (by decide)).1

/-- C6: update_memory_access on an existing id sets last_accessed to a
present value and increments access_count by exactly 1, changing no other
field and no other row; N applications starting from access_count 0 yield
access_count N; on an id that is not stored the store is left entirely
unchanged. -/
theorem update_access_spec (s : Store) (mid : Nat) (now : String) (N : Nat) :
    (∀ r, get_memory s mid = some r →
      get_memory (update_memory_access s mid now) mid =
        some { r with last_accessed := some now,
                      access_count := r.access_count + 1 }) ∧
    (∀ j, j ≠ mid →
      get_memory (update_memory_access s mid now) j = get_memory s j) ∧
    (∀ r, get_memory s mid = some r → r.access_count = 0 → 1 ≤ N →
      get_memory ((fun st => update_memory_access st mid now)^[N] s) mid =
        some { r with last_accessed := some now, access_count := N }) ∧
    ((∀ x ∈ s.rows, x.id ≠ mid) → update_memory_access s mid now = s) := by
  refine ⟨fun r hr => get_memory_update_hit s mid now r hr, ?_, ?_, ?_⟩
  · intro j hj
    have hrw : get_memory (update_memory_access s mid now) j =
        (s.rows.map (updRow mid now)).find? (fun r => r.id == j) := rfl
    rw [hrw, find?_map_of_pred _ _ (fun x => by rw [updRow_id])]
    unfold get_memory
    cases hf : s.rows.find? (fun r => r.id == j) with
    | none => rfl
    | some r =>
      have hid : r.id = j := by simpa using List.find?_some hf
      show some (updRow mid now r) = some r
      unfold updRow
      rw [if_neg (show ¬r.id = mid by rw [hid]; exact hj)]
  · intro r hr h0 hN
    obtain ⟨kk, rfl⟩ : ∃ kk, N = kk + 1 :=
      ⟨N - 1, (Nat.succ_pred_eq_of_pos hN).symm⟩
    rw [get_memory_update_iter s mid now r hr kk, h0]
    simp
  · intro hno
    have hmap : s.rows.map (updRow mid now) = s.rows := by
      rw [show s.rows.map (updRow mid now) = s.rows.map id from
        List.map_congr_left (fun x hx => by
          unfold updRow
          rw [if_neg (hno x hx)]
          rfl)]
      exact List.map_id s.rows
    rw [update_memory_access_eq]
    cases s with
    | mk rows nid => simpa using hmap

/-- C6 witness: concrete two-row store; updating id 1 once and three times,
reading id 2 unchanged, and updating the absent id 99 as a no-op. -/
theorem update_access_spec_witness :
    get_memory (update_memory_access accStore 1 "T1") 1 =
      some { accRow with last_accessed := some "T1", access_count := 1 } ∧
    get_memory (update_memory_access accStore 1 "T1") 2 =
      get_memory accStore 2 ∧
    get_memory ((fun st => update_memory_access st 1 "T1")^[3] accStore) 1 =
      some { accRow with last_accessed := some "T1", access_count := 3 } ∧
    update_memory_access accStore 99 "T1" = accStore := by
  refine ⟨(update_access_spec accStore 1 "T1" 3).1 accRow
      (by with_unfolding_all decide),
    (update_access_spec accStore 1 "T1" 3).2.1 2 (by decide),
    (update_access_spec accStore 1 "T1" 3).2.2.1 accRow
      (by with_unfolding_all decide) (by decide) (by decide),
    (update_access_spec accStore 99 "T1" 3).2.2.2 (by decide)⟩

/-- C7: deduplicate keeps, in input order, exactly the first occurrence of
each fingerprint type:key:value: its output is an order-preserving sublist
with pairwise-distinct fingerprints; of n records with k later-duplicate
fingerprints exactly n-k survive; a second application changes nothing; and
for every fingerprint the survivor found is the first input occurrence. -/
theorem deduplicate_spec (ms : List Candidate) :
    (deduplicate_memories ms).Sublist ms ∧
    ((deduplicate_memories ms).map fingerprint).Nodup ∧
    (deduplicate_memories ms).length + laterDupCount [] ms = ms.length ∧
    deduplicate_memories (deduplicate_memories ms) =
      deduplicate_memories ms ∧
    ∀ m : Candidate,
      (deduplicate_memories ms).find?
          (fun x => fingerprint x == fingerprint m) =
        ms.find? (fun x => fingerprint x == fingerprint m) := by
  refine ⟨dedupGo_sublist ms [], (dedupGo_fresh ms []).2,
    dedupGo_length ms [], dedupGo_idem ms [],
    fun m => dedupGo_find? ms [] m (List.not_mem_nil _)⟩

/-- C8 counterexample: with no matching rows the code does not return all
four fields as absent: COUNT yields the present value 0 (the three
aggregates are NULL as claimed). -/
theorem stats_counterexample :
    matchingRows statStore (some "b") = [] ∧
    (get_memory_stats statStore (some "b")).total_memories = some 0 ∧
    (get_memory_stats statStore (some "b")).total_memories ≠ none := by
  decide

/-- C8 (amended): get_memory_stats aggregates exactly over the rows matching
the session filter (all rows when none is given): the count of matching rows
(0, still present, when none match), the average confidence, and the minimum
and maximum source_turn; the three aggregate fields are absent when no rows
match. -/
theorem stats_spec (s : Store) (osid : Option String) :
    (get_memory_stats s osid).total_memories =
      some (matchingRows s osid).length ∧
    (matchingRows s osid = [] →
      (get_memory_stats s osid).avg_confidence = none ∧
      (get_memory_stats s osid).earliest_turn = none ∧
      (get_memory_stats s osid).latest_turn = none) ∧
    (matchingRows s osid ≠ [] →
      (∃ a, (get_memory_stats s osid).avg_confidence = some a ∧
        a * ((matchingRows s osid).length : ℚ) =
          ((matchingRows s osid).map (fun r => r.confidence)).sum) ∧
      (∃ e, (get_memory_stats s osid).earliest_turn = some e ∧
        e ∈ (matchingRows s osid).map (fun r => r.source_turn) ∧
        ∀ t ∈ (matchingRows s osid).map (fun r => r.source_turn), e ≤ t) ∧
      (∃ b, (get_memory_stats s osid).latest_turn = some b ∧
        b ∈ (matchingRows s osid).map (fun r => r.source_turn) ∧
        ∀ t ∈ (matchingRows s osid).map (fun r => r.source_turn), t ≤ b)) := by
  refine ⟨rfl, ?_, ?_⟩
  · intro hnil
    simp [get_memory_stats, hnil, sqlMin, sqlMax]
  · intro hne
    have hlen : (matchingRows s osid).length ≠ 0 :=
      fun h => hne (List.length_eq_zero.mp h)
    have hmapne : (matchingRows s osid).map (fun r => r.source_turn) ≠ [] := by
      simpa using hne
    refine ⟨⟨((matchingRows s osid).map (fun r => r.confidence)).sum /
        ((matchingRows s osid).length : ℚ), ?_, ?_⟩, ?_, ?_⟩
    · simp [get_memory_stats, hlen]
    · exact div_mul_cancel₀ _ (Nat.cast_ne_zero.mpr hlen)
    · obtain ⟨e, he, hm, hb⟩ := sqlMin_spec _ hmapne
      exact ⟨e, he, hm, hb⟩
    · obtain ⟨b, hb, hm, hub⟩ := sqlMax_spec _ hmapne
      exact ⟨b, hb, hm, hub⟩

/-- C2: for every store, session, current turn, query, max_memories and
min_relevance, retrieval returns at most max_memories records, and every
returned record carries a composite relevance score of at least
min_relevance. -/
theorem retrieve_spec (s : Store) (sid : String) (ct : Int) (q : String)
    (maxM : Nat) (minR : ℝ) :
    (retrieve_relevant_memories s sid ct q maxM minR).length ≤ maxM ∧
    AllScoresGe minR (retrieve_relevant_memories s sid ct q maxM minR) := by
  unfold retrieve_relevant_memories
  split
  · exact ⟨by simp, trivial⟩
  · constructor
    · rw [List.length_take]
      exact min_le_left _ _
    · rw [AllScoresGe_iff]
      intro x hx
      exact scoreSession_ge s sid ct q minR x
        ((List.mem_insertionSort relDesc).mp
          (mem_apply_diversity_filter _ _ _ (List.mem_of_mem_take hx)))

/-- C3 counterexample: two records identical except source_turn, both in the
future of current_turn 0: source_turn 10 is closer to the current turn than
source_turn 100, yet it scores strictly lower, because the unclamped recency
exp((source_turn - current_turn)/100) grows with source_turn. -/
theorem relevance_recency_counterexample :
    (0 - (futRow 10).source_turn).natAbs <
      (0 - (futRow 100).source_turn).natAbs ∧
    calculate_relevance (futRow 10) 0 "" <
      calculate_relevance (futRow 100) 0 "" := by
  have hval : ∀ st : Int, calculate_relevance (futRow st) 0 "" =
      min 1 (21/100 * Real.exp (-((0 - st : Int) : ℝ) / 100)) := by
    intro st
    unfold calculate_relevance
    have h1 : (futRow st).content = "" := rfl
    have h2 : (futRow st).access_count = 0 := rfl
    have h3 : (futRow st).confidence = 0 := rfl
    have h4 : (futRow st).type = "fact" := rfl
    have h5 : (futRow st).source_turn = st := rfl
    rw [h1, h2, h3, h4, h5, access_score_of_zero,
      semantic_similarity_empty_left]
    have h6 : ((type_priorities "fact" : ℚ) : ℝ) = 7/10 := by
      have : type_priorities "fact" = 7/10 := by with_unfolding_all decide
      rw [this]
      push_cast
      norm_num
    rw [h6]
    rw [show ((0:ℚ) : ℝ) = 0 from Rat.cast_zero]
    congr 1
    ring
  rw [hval 10, hval 100]
  refine ⟨by decide, ?_⟩
  have e10 : (-(((0:Int) - 10 : Int) : ℝ) / 100) = 1/10 := by
    norm_num
  have e100 : (-(((0:Int) - 100 : Int) : ℝ) / 100) = 1 := by
    norm_num
  rw [e10, e100]
  have hexp1 : Real.exp 1 < 2.7182818286 := Real.exp_one_lt_d9
  have hexp0 : Real.exp (1/10) < Real.exp 1 :=
    Real.exp_lt_exp.mpr (by norm_num)
  have hexp0pos : 0 < Real.exp (1/10) := Real.exp_pos _
  have hb1 : (21/100 : ℝ) * Real.exp 1 < 1 := by nlinarith
  have hb0 : (21/100 : ℝ) * Real.exp (1/10) < 1 := by nlinarith
  rw [min_eq_right hb0.le, min_eq_right hb1.le]
  nlinarith

/-- C3 (amended): the composite relevance score is monotone non-decreasing
in source_turn with all other fields, the current turn and the query held
equal.  For records at or before current_turn this is exactly closer-scores-
at-least-as-high; for records after current_turn the farther-future record
scores at least as high (strictly higher until the 1.0 clamp), contradicting
the closeness form of the claim (see the counterexample). -/
theorem relevance_monotone (m : MemRow) (s1 s2 ct : Int) (q : String)
    (h : s2 ≤ s1) :
    calculate_relevance { m with source_turn := s2 } ct q ≤
      calculate_relevance { m with source_turn := s1 } ct q := by
  unfold calculate_relevance
  have hT : (0:ℝ) ≤ ((type_priorities m.type : ℚ) : ℝ) := by
    exact_mod_cast type_priorities_nonneg m.type
  have hexp : Real.exp (-((ct - s2 : Int) : ℝ) / 100) ≤
      Real.exp (-((ct - s1 : Int) : ℝ) / 100) := by
    apply Real.exp_le_exp.mpr
    have hle : (ct - s1 : Int) ≤ (ct - s2 : Int) := by omega
    have hcast : ((ct - s1 : Int) : ℝ) ≤ ((ct - s2 : Int) : ℝ) := by
      exact_mod_cast hle
    linarith
  exact min_le_min le_rfl (mul_le_mul_of_nonneg_right
    (by dsimp only; linarith) hT)

/-- C3 witness: on a concrete past record, moving source_turn from 3 up to 5
(closer to current turn 10) does not decrease the score. -/
theorem relevance_monotone_witness :
    (3 : Int) ≤ 5 ∧
    calculate_relevance { pastRow with source_turn := 3 } 10 "tea" ≤
      calculate_relevance { pastRow with source_turn := 5 } 10 "tea" :=
  ⟨by decide, relevance_monotone pastRow 5 3 10 "tea" (by decide)⟩

/-- C4 counterexample: with four stored instruction rows, retrieve_critical
does not return every instruction record: retrieve_by_type is called with
max_memories 3, so the instruction with the lowest sort key is dropped. -/
theorem retrieve_critical_counterexample :
    insRow 4 (7/10) 4 ∈ fourInsStore.rows ∧
    (insRow 4 (7/10) 4).type = "instruction" ∧
    insRow 4 (7/10) 4 ∉ retrieve_critical_memories fourInsStore "s" 99 := by
  refine ⟨by with_unfolding_all decide, rfl, by with_unfolding_all decide⟩

/-- C4 (amended): retrieve_critical returns every stored instruction record
when the session has at most 3, every commitment record when the session has
at most 3, and every preference record with confidence above 0.8 when the
session has at most 5 preferences (in general it truncates to the top 3, 3
and 5 rows by confidence).  Rows with negative confidence are excluded by
the min_confidence 0 filter of the store scan. -/
theorem retrieve_critical_spec (s : Store) (sid : String) (ct : Int)
    (hI : (get_session_memories s sid (some "instruction") 0).length ≤ 3)
    (hC : (get_session_memories s sid (some "commitment") 0).length ≤ 3)
    (hP : (get_session_memories s sid (some "preference") 0).length ≤ 5) :
    ∀ r ∈ s.rows, r.session_id = sid → (0 : ℚ) ≤ r.confidence →
      (r.type = "instruction" → r ∈ retrieve_critical_memories s sid ct) ∧
      (r.type = "commitment" → r ∈ retrieve_critical_memories s sid ct) ∧
      (r.type = "preference" → (8 : ℚ)/10 < r.confidence →
        r ∈ retrieve_critical_memories s sid ct) := by
  intro r hr hsid hconf
  refine ⟨?_, ?_, ?_⟩
  · intro hty
    have hmem := (mem_get_session_memories_some s sid "instruction" r).mpr
      ⟨hr, hsid, hty, hconf⟩
    exact List.mem_append_left _ (List.mem_append_left _
      (mem_retrieve_by_type_of s sid "instruction" 3 r hI hmem))
  · intro hty
    have hmem := (mem_get_session_memories_some s sid "commitment" r).mpr
      ⟨hr, hsid, hty, hconf⟩
    exact List.mem_append_left _ (List.mem_append_right _
      (mem_retrieve_by_type_of s sid "commitment" 3 r hC hmem))
  · intro hty h8
    have hmem := (mem_get_session_memories_some s sid "preference" r).mpr
      ⟨hr, hsid, hty, hconf⟩
    exact List.mem_append_right _
      (List.mem_filter.mpr
        ⟨mem_retrieve_by_type_of s sid "preference" 5 r hP hmem,
          decide_eq_true h8⟩)

/-- C4 witness: a concrete store with one instruction, one commitment and
one high-confidence preference; the preference row is returned. -/
theorem retrieve_critical_spec_witness :
    (8 : ℚ)/10 < critPref.confidence ∧
    critPref ∈ retrieve_critical_memories critStore "s" 42 := by
  refine ⟨by with_unfolding_all decide, ?_⟩
  exact (retrieve_critical_spec critStore "s" 42
    (by with_unfolding_all decide) (by with_unfolding_all decide)
    (by with_unfolding_all decide) critPref
    (by with_unfolding_all decide) rfl
    (by with_unfolding_all decide)).2.2 rfl (by with_unfolding_all decide)

/-- C5 counterexample: with the similarity backend disabled, a query that
contains the LIKE wildcard percent returns a row that does not contain the
query as a substring: searching "10%" yields the row with content
"10 percent off", though neither its content nor its value contains the text
"10%". -/
theorem text_search_counterexample :
    text_search "10%" (some "s1") 5 pctStore = [pctRow] ∧
    ¬containsCI pctRow.content "10%" ∧
    ¬containsCI "discount" "10%" ∧
    pctRow.value = some "discount" := by
  refine ⟨by with_unfolding_all decide, by decide, by decide, rfl⟩

/-- C5 (amended): when the similarity backend is disabled and the query
contains no LIKE wildcard (percent or underscore), search returns at most
top_k rows, ordered by confidence descending, and only rows of the requested
session whose content or value contains the query as a case-insensitive
substring.  Queries containing wildcards can also match rows in which the
query is not a substring (see the counterexample). -/
theorem text_search_spec (q sid : String) (k : Nat) (s : Store)
    (hq : wildcardFree q) :
    (text_search q (some sid) k s).length ≤ k ∧
    List.Sorted confDesc (text_search q (some sid) k s) ∧
    ∀ r ∈ text_search q (some sid) k s,
      r.session_id = sid ∧
      (containsCI r.content q ∨ ∃ v, r.value = some v ∧ containsCI v q) := by
  rw [text_search_eq]
  refine ⟨?_, ?_, ?_⟩
  · rw [List.length_take]
    exact min_le_left _ _
  · exact List.Pairwise.sublist (List.take_sublist _ _)
      (List.sorted_insertionSort confDesc _)
  · intro r hr
    have hr2 := (List.mem_insertionSort confDesc).mp (List.mem_of_mem_take hr)
    have hr3 := List.mem_filter.mp hr2
    have hcond := hr3.2
    rw [Bool.and_eq_true] at hcond
    obtain ⟨hsid, hlike⟩ := hcond
    refine ⟨by simpa using hsid, ?_⟩
    rcases (rowLikeMatch_iff _ r).mp hlike with hl | ⟨v, hv, hl⟩
    · exact Or.inl ((likeM_pattern_iff q.data r.content.data hq).mp hl)
    · exact Or.inr ⟨v, hv, (likeM_pattern_iff q.data v.data hq).mp hl⟩

/-- C5 witness: a wildcard-free query on a concrete two-row store. -/
theorem text_search_spec_witness :
    (text_search "Lang" (some "s1") 5 langStore).length ≤ 5 ∧
    List.Sorted confDesc (text_search "Lang" (some "s1") 5 langStore) ∧
    ∀ r ∈ text_search "Lang" (some "s1") 5 langStore,
      r.session_id = "s1" ∧
      (containsCI r.content "Lang" ∨
        ∃ v, r.value = some v ∧ containsCI v "Lang") :=
  text_search_spec "Lang" "s1" 5 langStore (by decide)

/-- C9: the extraction output does not depend on the assistant response (all
six rule families read only the user text), and extraction is total, giving
the empty candidate sequence when no rule matches, as on the empty message. -/
theorem extract_independent_of_assistant (u a1 a2 : String) (t : Int)
    (sid now : String) :
    extract_memories u a1 t sid now = extract_memories u a2 t sid now ∧
    extract_memories "" a1 t sid now = [] :=
  ⟨rfl, rfl⟩

/-- C10: on the user text "tomorrow " (relative-time marker, whitespace, end
of text) extraction yields exactly one commitment candidate whose value is
absent (None): the optional group of commitment pattern 4 does not
participate.  The candidate passes the confidence filter at 0.6, survives
deduplication, its fingerprint renders the absent value as the literal text
None, and store_memory accepts it (id 1, one row written). -/
theorem commitment_none_value :
    extract_memories "tomorrow " "any reply" 3 "s1" "T0" = [tomorrowCand] ∧
    tomorrowCand.value = none ∧
    filter_memories [tomorrowCand] (6/10) = [tomorrowCand] ∧
    deduplicate_memories [tomorrowCand] = [tomorrowCand] ∧
    fingerprint tomorrowCand = "commitment:scheduled_action:None" ∧
    (store_memory emptyStore tomorrowCand).1 = 1 ∧
    (store_memory emptyStore tomorrowCand).2.rows = [rowOf 1 tomorrowCand] := by
  refine ⟨by with_unfolding_all decide, rfl, by with_unfolding_all decide,
    by with_unfolding_all decide, rfl, rfl, rfl⟩

/-- C8 witness: on the concrete two-row store the count over session a is 2
with the minimum source_turn present, and over the empty session b the three
aggregates are absent. -/
theorem stats_spec_witness :
    (get_memory_stats statStore (some "a")).total_memories = some 2 ∧
    ((get_memory_stats statStore (some "b")).avg_confidence = none ∧
      (get_memory_stats statStore (some "b")).earliest_turn = none ∧
      (get_memory_stats statStore (some "b")).latest_turn = none) ∧
    (∃ e, (get_memory_stats statStore (some "a")).earliest_turn = some e ∧
      e ∈ (matchingRows statStore (some "a")).map (fun r => r.source_turn) ∧
      ∀ t ∈ (matchingRows statStore (some "a")).map (fun r => r.source_turn),
        e ≤ t) := by
  exact ⟨(stats_spec statStore (some "a")).1,
    (stats_spec statStore (some "b")).2.1 (by decide),
    ((stats_spec statStore (some "a")).2.2 (by decide)).2.1⟩

end LongMemory
